import Mathlib

/-!
Verification of the core logic of the MarketIntelligence Streamlit app
(`src/streamlit_app.py`): the tenor period-code generator, the hierarchical
cascading record filter, the append-only audit history, and the Add / Edit /
Delete handlers over the spreadsheet-backed record collection.

Records are rows of the sheet; every cell is modelled as a `String` (the
loader fills missing columns with the empty string, so `dropna` is the
identity on these columns).  Python string primitives used by the app
(`str(n)`, slicing, `in`, `split`, `strip`, `lower`, `upper`, `join`) are
embedded as character-list functions.  `json.dumps` of a row dict is an
external serializer and is modelled by carrying the row value itself
(`Option Record`, with `none` standing for the empty cell).  The pandas
`str.contains` date filter is modelled as case-insensitive substring
containment.
-/

-- ===========================================================================
-- Definitions
-- ===========================================================================

/-- Fuel-driven decimal digit expansion; any fuel larger than the number works. -/
def pyDigitsAux : Nat → Nat → List Char
  | 0, _ => []
  | fuel + 1, n =>
    if n < 10 then [Nat.digitChar n]
    else pyDigitsAux fuel (n / 10) ++ [Nat.digitChar (n % 10)]

/-- Decimal digit list of a natural number, most significant first (Python `str(n)`). -/
def pyDigits (n : Nat) : List Char := pyDigitsAux (n + 1) n

/-- Python `str(n)` for a natural number. -/
def pyStr (n : Nat) : String := ⟨pyDigits n⟩

/-- Python `str(n)[-2:]`: the last two characters of the decimal rendering. -/
def last2 (n : Nat) : String := ⟨(pyDigits n).drop ((pyDigits n).length - 2)⟩

/-- A string made of exactly two decimal digit characters. -/
def twoDigits (s : String) : Prop :=
  ∃ a b, s.data = [a, b] ∧ a.isDigit = true ∧ b.isDigit = true

/-- The upper-cased three-letter month stems produced by `month.upper()[:3]`. -/
def stemsList : List String :=
  ["JAN", "FEB", "MAR", "APR", "MAY", "JUN", "JUL", "AUG", "SEP", "OCT", "NOV", "DEC"]

/-- The four quarter suffixes `Q1`..`Q4`. -/
def qList : List String := ["Q1", "Q2", "Q3", "Q4"]

/-- Month codes for one year suffix: stem followed by the two-digit year. -/
def monthBlock (u : String) : List String := stemsList.map (fun st => st ++ u)

/-- Quarter codes for one year suffix: two-digit year followed by `Q1`..`Q4`. -/
def quarterBlock (u : String) : List String := qList.map (fun qs => u ++ qs)

/-- Codes of the form `year-suffix ++ w` (used for `WIN` and `SUM`). -/
def tailBlock (w : String) (us : List String) : List String := us.map (fun u => u ++ w)

/-- Codes of the form `p ++ year-suffix` (used for `CAL`, `GY` and `SY`). -/
def headBlock (p : String) (us : List String) : List String := us.map (fun u => p ++ u)

/-- The tenor list with the three year suffixes made explicit. -/
def genTenor (u0 u1 u2 : String) : List String :=
  monthBlock u0 ++ monthBlock u1 ++ monthBlock u2 ++
  quarterBlock u0 ++ quarterBlock u1 ++ quarterBlock u2 ++
  tailBlock "WIN" [u0, u1, u2] ++ tailBlock "SUM" [u0, u1, u2] ++
  headBlock "CAL" [u0, u1, u2] ++ headBlock "GY" [u0, u1, u2] ++ headBlock "SY" [u0, u1, u2]

/-- The month names iterated by the source list comprehension. -/
def monthsList : List String :=
  ["Jan", "Feb", "Mar", "Apr", "May", "Jun", "Jul", "Aug", "Sep", "Oct", "Nov", "Dec"]

/-- Python `s.upper()`: per-character uppercasing. -/
def pyUpper (s : String) : String := ⟨s.data.map Char.toUpper⟩

/-- Python `s[:k]`: keep the first `k` characters. -/
def pyTake (s : String) (k : Nat) : String := ⟨s.data.take k⟩

/-- One month code: `f"{month.upper()[:3]}{str(year)[-2:]}"`. -/
def monthCode (y : Nat) (m : String) : String := pyTake (pyUpper m) 3 ++ last2 y

/-- Python string `<=`, as a Boolean comparator for sorting. -/
def strLe (a b : String) : Bool := decide (a ≤ b)

/-- The unsorted tenor vocabulary built by the source's seven list
comprehensions over `range(current_year, current_year + 3)`. -/
def tenorRaw (cy : Nat) : List String :=
  ((List.range' cy 3).flatMap fun y => monthsList.map (monthCode y)) ++
  ((List.range' cy 3).flatMap fun y =>
    (List.range' 1 4).map (fun q => last2 y ++ "Q" ++ pyStr q)) ++
  ((List.range' cy 3).map fun y => last2 y ++ "WIN") ++
  ((List.range' cy 3).map fun y => last2 y ++ "SUM") ++
  ((List.range' cy 3).map fun y => "CAL" ++ last2 y) ++
  ((List.range' cy 3).map fun y => "GY" ++ last2 y) ++
  ((List.range' cy 3).map fun y => "SY" ++ last2 y)

/-- `predefined_options`: the sorted tenor vocabulary offered to the user. -/
def predefined_options (cy : Nat) : List String := (tenorRaw cy).mergeSort strLe

/-- Python `sorted(set(l))`: the sorted list of the distinct elements. -/
def sortedDedup (l : List String) : List String := (l.dedup).mergeSort strLe

/-- Python `needle in hay` on strings: substring containment. -/
def pyIn (needle hay : String) : Bool :=
  hay.data.tails.any (fun t => needle.data.isPrefixOf t)

/-- Python `s.lower()`: per-character lowercasing. -/
def pyLower (s : String) : String := ⟨s.data.map Char.toLower⟩

/-- Python `s.strip()`: remove leading and trailing whitespace. -/
def pyStrip (s : String) : String :=
  ⟨((s.data.dropWhile Char.isWhitespace).reverse.dropWhile Char.isWhitespace).reverse⟩

/-- Python `s.split(c)` on a character list, for a single-character separator. -/
def splitOnChar (c : Char) : List Char → List (List Char)
  | [] => [[]]
  | x :: xs =>
    if x = c then [] :: splitOnChar c xs
    else
      match splitOnChar c xs with
      | [] => [[x]]
      | y :: ys => (x :: y) :: ys

/-- Python `s.split(c)` for a single-character separator. -/
def pySplit (s : String) (c : Char) : List String := (splitOnChar c s.data).map fun l => ⟨l⟩

/-- Python `sep.join(parts)`. -/
def pyJoin (sep : String) : List String → String
  | [] => ""
  | [x] => x
  | x :: xs => x ++ sep ++ pyJoin sep xs

/-- One sheet row, fields in the order of `REQUIRED_COLUMNS`; every cell a string. -/
structure Record where
  timestamp : String
  name : String
  counterparty : String
  country : String
  pointType : String
  pointName : String
  date : String
  info : String
  capacityValue : String
  capacityUnit : String
  volumeValue : String
  volumeUnit : String
  tags : String
deriving DecidableEq

/-- The sidebar filter selections (session state). -/
structure FilterState where
  selectedCounterparty : String
  selectedPointType : String
  selectedPointName : String
  selectedTags : List String
  timeHorizonInput : String
  unifiedSearch : String
deriving DecidableEq

/-- Counterparty stage: exact match unless the sentinel `All` is selected. -/
def filterCounterparty (fs : FilterState) (df : List Record) : List Record :=
  if fs.selectedCounterparty == "All" then df
  else df.filter fun r => r.counterparty == fs.selectedCounterparty

/-- Point-type stage. -/
def filterPointType (fs : FilterState) (df : List Record) : List Record :=
  if fs.selectedPointType == "All" then df
  else df.filter fun r => r.pointType == fs.selectedPointType

/-- Point-name stage. -/
def filterPointName (fs : FilterState) (df : List Record) : List Record :=
  if fs.selectedPointName == "All" then df
  else df.filter fun r => r.pointName == fs.selectedPointName

/-- `any(tag in x for tag in selected_tags)`: substring test per selected tag. -/
def tagMatches (sel : List String) (tags : String) : Bool := sel.any fun t => pyIn t tags

/-- Tag stage: applied only when the selection is non-empty. -/
def filterTags (fs : FilterState) (df : List Record) : List Record :=
  if fs.selectedTags.isEmpty then df
  else df.filter fun r => tagMatches fs.selectedTags r.tags

/-- Date stage: `str.contains(input.strip(), case=False)`, modelled as
case-insensitive substring containment. -/
def filterDate (fs : FilterState) (df : List Record) : List Record :=
  if fs.timeHorizonInput == "" then df
  else df.filter fun r => pyIn (pyLower (pyStrip fs.timeHorizonInput)) (pyLower r.date)

/-- `row_matches_any_field`: the lowered query occurs in one of seven fields. -/
def rowMatchesAnyField (q : String) (r : Record) : Bool :=
  [r.info, r.country, r.pointName, r.pointType, r.counterparty, r.date, r.tags].any
    fun f => pyIn q (pyLower f)

/-- Universal search stage. -/
def filterSearch (fs : FilterState) (df : List Record) : List Record :=
  if fs.unifiedSearch == "" then df
  else df.filter (rowMatchesAnyField (pyLower fs.unifiedSearch))

/-- `filtered_df`: the six filter stages applied in source order. -/
def filtered_df (df : List Record) (fs : FilterState) : List Record :=
  filterSearch fs (filterDate fs (filterTags fs
    (filterPointName fs (filterPointType fs (filterCounterparty fs df)))))

/-- The conjunction of all six stage predicates, in composition order. -/
def keepAll (fs : FilterState) (r : Record) : Bool :=
  ((((((fs.selectedCounterparty == "All") || (r.counterparty == fs.selectedCounterparty)) &&
    ((fs.selectedPointType == "All") || (r.pointType == fs.selectedPointType))) &&
    ((fs.selectedPointName == "All") || (r.pointName == fs.selectedPointName))) &&
    (fs.selectedTags.isEmpty || tagMatches fs.selectedTags r.tags)) &&
    ((fs.timeHorizonInput == "") || pyIn (pyLower (pyStrip fs.timeHorizonInput)) (pyLower r.date))) &&
    ((fs.unifiedSearch == "") || rowMatchesAnyField (pyLower fs.unifiedSearch) r)

/-- `counterparty_list`: sorted distinct counterparties over the full collection. -/
def counterparty_list (df : List Record) : List String :=
  sortedDedup (df.map (fun r => r.counterparty))

/-- `point_types`: sorted distinct point types over the counterparty-filtered rows. -/
def point_types (df : List Record) (fs : FilterState) : List String :=
  sortedDedup ((filterCounterparty fs df).map (fun r => r.pointType))

/-- `point_names`: sorted distinct point names after the first two stages. -/
def point_names (df : List Record) (fs : FilterState) : List String :=
  sortedDedup ((filterPointType fs (filterCounterparty fs df)).map (fun r => r.pointName))

/-- `tags_available`: sorted distinct stripped comma-fragments after three stages. -/
def tags_available (df : List Record) (fs : FilterState) : List String :=
  sortedDedup ((filterPointName fs (filterPointType fs (filterCounterparty fs df))).flatMap
    (fun r => (pySplit r.tags ',').map pyStrip))

/-- The counterparty selectbox options: sentinel `All` plus the value list. -/
def counterparty_options (df : List Record) : List String := "All" :: counterparty_list df

/-- The point-type selectbox options. -/
def point_type_options (df : List Record) (fs : FilterState) : List String :=
  "All" :: point_types df fs

/-- The point-name selectbox options. -/
def point_name_options (df : List Record) (fs : FilterState) : List String :=
  "All" :: point_names df fs

/-- One row of the History sheet, fields in the order `append_history` writes them.
The `data` and `oldData` fields model `json.dumps(row)` / the empty cell. -/
structure HistRecord where
  timestamp : String
  action : String
  name : String
  pointName : String
  data : Option Record
  oldData : Option Record
  comment : String
  user : String
deriving DecidableEq

/-- The record written to the History sheet by one `append_history` call;
`timestamp` receives the current UTC instant. -/
def histEntry (now : String) (action : String) (rowData : Record) (oldData : Option Record)
    (comment : Option String) (userName : Option String) : HistRecord :=
  { timestamp := now, action := action, name := rowData.name,
    pointName := rowData.pointName, data := some rowData, oldData := oldData,
    comment := comment.getD "", user := userName.getD "" }

/-- `append_history`: append one row to the History sheet. -/
def append_history (log : List HistRecord) (now : String) (action : String) (rowData : Record)
    (oldData : Option Record) (comment : Option String) (userName : Option String) :
    List HistRecord :=
  log ++ [histEntry now action rowData oldData comment userName]

/-- The form fields of the Add New mode at the moment Save Entry is pressed. -/
structure AddInput where
  name : String
  counterparty : String
  country : String
  pointType : String
  pointName : String
  dateRepr : String
  info : String
  capacityValue : String
  capacityUnit : String
  volumeValue : String
  volumeUnit : String
  tagsValue : String
deriving DecidableEq

/-- The `new_row` dict built by the Save Entry handler. -/
def newRowOf (now : String) (inp : AddInput) : Record :=
  { timestamp := now, name := inp.name, counterparty := inp.counterparty,
    country := inp.country, pointType := inp.pointType, pointName := inp.pointName,
    date := inp.dateRepr, info := inp.info, capacityValue := inp.capacityValue,
    capacityUnit := inp.capacityUnit, volumeValue := inp.volumeValue,
    volumeUnit := inp.volumeUnit, tags := inp.tagsValue }

/-- Result of the Save Entry handler: the (possibly) new collection and history,
and whether the entry was accepted and written. -/
structure SaveResult where
  df : List Record
  history : List HistRecord
  saved : Bool
deriving DecidableEq

/-- The duplicate check of the Save Entry handler:
`not df.empty and ((df['Point Name'] == pn) & (df['Date'] == d) & (df['Counterparty'] == cp)).any()`. -/
def isDuplicateEntry (df : List Record) (inp : AddInput) : Bool :=
  !df.isEmpty && df.any fun r =>
    r.pointName == inp.pointName && r.date == inp.dateRepr && r.counterparty == inp.counterparty

/-- The Save Entry handler: warn-and-skip on duplicate, otherwise concat the new
row, append a create history entry and save. -/
def saveEntry (df : List Record) (history : List HistRecord) (now : String) (inp : AddInput) :
    SaveResult :=
  if isDuplicateEntry df inp then
    { df := df, history := history, saved := false }
  else
    let newRow := newRowOf now inp
    { df := df ++ [newRow],
      history := append_history history now "create" newRow none none (some inp.name),
      saved := true }

/-- Point-name choice of the Add New form (dynamic selection based on point type). -/
def point_name_choice (pointType crossborderName selectedVp customVp selectedSp customSp :
    String) : String :=
  if pointType = "Crossborder Point" then crossborderName
  else if pointType = "Virtual Point" then
    (if selectedVp = "Other..." then customVp else selectedVp)
  else if pointType = "Storage" then
    (if selectedSp = "Other..." then customSp else selectedSp)
  else "Entire Country"

/-- Point-name choice of the Edit Existing form (same conditional logic). -/
def new_point_name_choice (pointType crossborderName selectedVp customVp selectedSp customSp :
    String) : String :=
  if pointType = "Crossborder Point" then crossborderName
  else if pointType = "Virtual Point" then
    (if selectedVp = "Other..." then customVp else selectedVp)
  else if pointType = "Storage" then
    (if selectedSp = "Other..." then customSp else selectedSp)
  else "Entire Country"

/-- Typed custom tags: comma-split, stripped, empties removed. -/
def typed_tags (customInput : String) : List String :=
  ((pySplit customInput ',').map pyStrip).filter fun t => t ≠ ""

/-- `tags_value`: the comma-space join of the sorted distinct combined tags. -/
def tags_value (selectedTags : List String) (customInput : String) : String :=
  pyJoin ", " (sortedDedup (selectedTags ++ typed_tags customInput))

/-- The form fields of the Edit Existing mode at the moment Save Changes is pressed. -/
structure EditInput where
  info : String
  country : String
  pointType : String
  pointName : String
  date : String
  counterparty : String
  capacityValue : String
  capacityUnit : String
  volumeValue : String
  volumeUnit : String
  tagsValue : String
  name : String
deriving DecidableEq

/-- The twelve `df.at[selected_index, ...] = ...` assignments of Save Changes;
the Timestamp field is not assigned. -/
def updateRow (r : Record) (e : EditInput) : Record :=
  { r with
    info := e.info
    country := e.country
    pointType := e.pointType
    pointName := e.pointName
    date := e.date
    counterparty := e.counterparty
    capacityValue := e.capacityValue
    capacityUnit := e.capacityUnit
    volumeValue := e.volumeValue
    volumeUnit := e.volumeUnit
    tags := e.tagsValue
    name := e.name }

/-- The Save Changes handler: update the selected row in place, then append an
edit history entry carrying the new and the old state. -/
def saveChanges (df : List Record) (history : List HistRecord) (now : String) (i : Nat)
    (e : EditInput) : List Record × List HistRecord :=
  match df[i]? with
  | none => (df, history)
  | some r =>
    let updated := updateRow r e
    (df.set i updated, append_history history now "edit" updated (some r) none (some e.name))

/-- The `Counterparty | Point Name | Date` display key used to select a row. -/
def rowKey (r : Record) : String := r.counterparty ++ " | " ++ r.pointName ++ " | " ++ r.date

/-- The Delete Entry handler: drop the first row whose key matches, then append
a delete history entry whose `row_data` argument is the deleted row. -/
def deleteEntry (df : List Record) (history : List HistRecord) (now : String)
    (selectedKey : String) (userName : String) : List Record × List HistRecord :=
  match df.findIdx? (fun r => rowKey r == selectedKey) with
  | none => (df, history)
  | some i =>
    match df[i]? with
    | none => (df, history)
    | some r =>
      (df.eraseIdx i, append_history history now "delete" r none none (some userName))

/-- The tag-match predicate as the specification words it: some comma-separated
tag of the record is exactly equal (case-sensitive) to some selected tag. -/
def specTagMatch (r : Record) (sel : List String) : Bool :=
  sel.any fun t => ((pySplit r.tags ',').map pyStrip).any fun tok => tok == t

/-- An option set as the specification words it: the distinct non-empty values
of the target field. -/
def specNonEmptyValues (vals : List String) : List String :=
  sortedDedup (vals.filter fun v => v ≠ "")

/-- A row with every cell empty. -/
def blankRecord : Record :=
  { timestamp := "", name := "", counterparty := "", country := "", pointType := "",
    pointName := "", date := "", info := "", capacityValue := "", capacityUnit := "",
    volumeValue := "", volumeUnit := "", tags := "" }

/-- Fixture: an existing row authored by user `A`. -/
def rA : Record :=
  { blankRecord with
    name := "A"
    counterparty := "X"
    pointName := "P"
    date := "2025-01-01" }

/-- Fixture: an Add input with the same Name `A` but a different
(Point Name, Date, Counterparty) triple. -/
def inpSameName : AddInput :=
  { name := "A", counterparty := "Y", country := "Hungary", pointType := "Entire Country",
    pointName := "Entire Country", dateRepr := "2025-01-01", info := "", capacityValue := "",
    capacityUnit := "", volumeValue := "", volumeUnit := "", tagsValue := "" }

/-- Fixture: an Add input whose (Point Name, Date, Counterparty) triple matches `rA`. -/
def inpTriple : AddInput :=
  { inpSameName with
    name := "B"
    counterparty := "X"
    pointName := "P" }

/-- Fixture: a row whose Tags cell is the single tag string `abc`. -/
def rTags : Record := { blankRecord with tags := "abc" }

/-- Fixture: a filter state selecting the single tag `b`. -/
def fsTagB : FilterState :=
  { selectedCounterparty := "All", selectedPointType := "All", selectedPointName := "All",
    selectedTags := ["b"], timeHorizonInput := "", unifiedSearch := "" }

/-- Fixture: an Add input whose point type is Entire Country and whose point
name was produced by the form's choice logic. -/
def inpEC : AddInput :=
  { inpSameName with pointName := point_name_choice "Entire Country" "" "" "" "" "" }

/-- Fixture: an Edit input whose point type is Entire Country and whose point
name was produced by the form's choice logic. -/
def editEC : EditInput :=
  { info := "", country := "Hungary", pointType := "Entire Country",
    pointName := new_point_name_choice "Entire Country" "" "" "" "" "", date := "",
    counterparty := "", capacityValue := "", capacityUnit := "", volumeValue := "",
    volumeUnit := "", tagsValue := "", name := "" }

-- ===========================================================================
-- Helper lemmas: decimal digits and the two-digit year suffix
-- ===========================================================================

theorem pyDigitsAux_fuel : ∀ (f₁ : Nat) {f₂ n : Nat}, n < f₁ → n < f₂ →
    pyDigitsAux f₁ n = pyDigitsAux f₂ n := by
  intro f₁
  induction f₁ with
  | zero => omega
  | succ f ih =>
    intro f₂ n h₁ h₂
    obtain ⟨g, rfl⟩ : ∃ g, f₂ = g + 1 := ⟨f₂ - 1, by omega⟩
    by_cases h : n < 10
    · simp [pyDigitsAux, h]
    · have hd : n / 10 < n := Nat.div_lt_self (by omega) (by omega)
      show (if n < 10 then _ else pyDigitsAux f (n / 10) ++ _) =
        (if n < 10 then _ else pyDigitsAux g (n / 10) ++ _)
      rw [if_neg h, if_neg h, @ih g (n / 10) (by omega) (by omega)]

theorem pyDigits_lt10 {n : Nat} (h : n < 10) : pyDigits n = [Nat.digitChar n] := by
  simp [pyDigits, pyDigitsAux, h]

theorem pyDigits_ge10 {n : Nat} (h : 10 ≤ n) :
    pyDigits n = pyDigits (n / 10) ++ [Nat.digitChar (n % 10)] := by
  have hd : n / 10 < n := Nat.div_lt_self (by omega) (by omega)
  have h1 : pyDigits n =
      if n < 10 then [Nat.digitChar n] else pyDigitsAux n (n / 10) ++ [Nat.digitChar (n % 10)] :=
    rfl
  rw [h1, if_neg (Nat.not_lt.mpr h)]
  congr 1
  exact pyDigitsAux_fuel n hd (Nat.lt_succ_self _)

theorem pyDigits_ne_nil (n : Nat) : pyDigits n ≠ [] := by
  by_cases h : n < 10
  · rw [pyDigits_lt10 h]; simp
  · rw [pyDigits_ge10 (Nat.not_lt.mp h)]; simp

theorem pyDigits_getLast? (n : Nat) : (pyDigits n).getLast? = some (Nat.digitChar (n % 10)) := by
  by_cases h : n < 10
  · rw [pyDigits_lt10 h]; simp [Nat.mod_eq_of_lt h]
  · rw [pyDigits_ge10 (Nat.not_lt.mp h)]
    simp

theorem last2_eq {n : Nat} (h : 10 ≤ n) :
    last2 n = ⟨[Nat.digitChar (n / 10 % 10), Nat.digitChar (n % 10)]⟩ := by
  obtain ⟨M, hM⟩ : ∃ M, pyDigits n = M ++ [Nat.digitChar (n / 10 % 10), Nat.digitChar (n % 10)] := by
    refine ⟨(pyDigits (n / 10)).dropLast, ?_⟩
    rw [pyDigits_ge10 h]
    have hne := pyDigits_ne_nil (n / 10)
    have h3 : (pyDigits (n / 10)).getLast hne = Nat.digitChar (n / 10 % 10) := by
      have h4 := pyDigits_getLast? (n / 10)
      rwa [List.getLast?_eq_getLast _ hne, Option.some.injEq] at h4
    conv_lhs => rw [← List.dropLast_append_getLast hne, h3]
    simp
  rw [last2, hM]
  have hlen : (M ++ [Nat.digitChar (n / 10 % 10), Nat.digitChar (n % 10)]).length - 2 =
      M.length := by
    simp
  rw [hlen, List.drop_left]

theorem digitChar_inj : ∀ m : Fin 10, ∀ m' : Fin 10,
    Nat.digitChar m.val = Nat.digitChar m'.val → m = m' := by decide

theorem digitChar_isDigit : ∀ m : Fin 10, (Nat.digitChar m.val).isDigit = true := by decide

theorem twoDigits_last2 {n : Nat} (h : 10 ≤ n) : twoDigits (last2 n) := by
  rw [last2_eq h]
  exact ⟨_, _, rfl, digitChar_isDigit ⟨n / 10 % 10, by omega⟩, digitChar_isDigit ⟨n % 10, by omega⟩⟩

theorem twoDigits.len {s : String} (h : twoDigits s) : s.length = 2 := by
  obtain ⟨a, b, hd, -, -⟩ := h
  simp [String.length, hd]

theorem last2_ne {m n : Nat} (hm : 10 ≤ m) (hlt : m < n) (hcl : n ≤ m + 2) :
    last2 m ≠ last2 n := by
  intro h
  rw [last2_eq hm, last2_eq (by omega)] at h
  have hd := congrArg String.data h
  simp only [List.cons.injEq, and_true] at hd
  obtain ⟨h1, h2⟩ := hd
  have e1 : (⟨m / 10 % 10, by omega⟩ : Fin 10) = ⟨n / 10 % 10, by omega⟩ :=
    digitChar_inj _ _ h1
  have e2 : (⟨m % 10, by omega⟩ : Fin 10) = ⟨n % 10, by omega⟩ := digitChar_inj _ _ h2
  have e1' : m / 10 % 10 = n / 10 % 10 := congrArg Fin.val e1
  have e2' : m % 10 = n % 10 := congrArg Fin.val e2
  omega

-- ===========================================================================
-- Helper lemmas: string splitting and distinguishing
-- ===========================================================================

theorem str_split {x y u v : String} (hlen : x.length = y.length) (h : x ++ u = y ++ v) :
    x = y ∧ u = v := by
  have hd := congrArg String.data h
  rw [String.data_append, String.data_append] at hd
  have := List.append_inj hd hlen
  exact ⟨String.ext this.1, String.ext this.2⟩

theorem str_ne_of_head {x y : String} (h : x.data.head? ≠ y.data.head?) : x ≠ y :=
  fun e => h (congrArg (fun s => String.data s |>.head?) e)

theorem head_append_left {x u : String} (hx : x.data ≠ []) :
    (x ++ u).data.head? = x.data.head? := by
  rw [String.data_append, List.head?_append_of_ne_nil _ hx]

theorem head_twoDigits_append {u w : String} (hu : twoDigits u) :
    ((u ++ w).data.head?.map Char.isDigit) = some true := by
  obtain ⟨a, b, hd, ha, -⟩ := hu
  rw [head_append_left (by rw [hd]; exact List.cons_ne_nil _ _), hd]
  simp [ha]

-- ===========================================================================
-- Helper lemmas: distinctness of the tenor vocabulary
-- ===========================================================================

theorem stems_len : ∀ st ∈ stemsList, st.length = 3 := by decide

theorem stems_head : ∀ st ∈ stemsList, (st.data.head?.map Char.isDigit) = some false := by decide

theorem stems_nodup : stemsList.Nodup := by decide

theorem stems_ne_CAL : ∀ st ∈ stemsList, st ≠ "CAL" := by decide

theorem qList_nodup : qList.Nodup := by decide

theorem qList_len : ∀ qs ∈ qList, qs.length = 2 := by decide

theorem month_heads {u : String} :
    ∀ s ∈ monthBlock u, (s.data.head?.map Char.isDigit) = some false := by
  intro s hs
  obtain ⟨st, hst, rfl⟩ := List.mem_map.mp hs
  have h3 := stems_len st hst
  rw [head_append_left (by intro he; rw [String.length, he] at h3; simp at h3)]
  exact stems_head st hst

theorem quarter_heads {u : String} (hu : twoDigits u) :
    ∀ s ∈ quarterBlock u, (s.data.head?.map Char.isDigit) = some true := by
  intro s hs
  obtain ⟨qs, -, rfl⟩ := List.mem_map.mp hs
  exact head_twoDigits_append hu

theorem tail_heads {w : String} {us : List String} (hU : ∀ x ∈ us, twoDigits x) :
    ∀ s ∈ tailBlock w us, (s.data.head?.map Char.isDigit) = some true := by
  intro s hs
  obtain ⟨u, hu, rfl⟩ := List.mem_map.mp hs
  exact head_twoDigits_append (hU u hu)

theorem headBlock_heads {p : String} {us : List String}
    (hp : (p.data.head?.map Char.isDigit) = some false) :
    ∀ s ∈ headBlock p us, (s.data.head?.map Char.isDigit) = some false := by
  intro s hs
  obtain ⟨u, -, rfl⟩ := List.mem_map.mp hs
  rw [head_append_left (by rintro he; rw [he] at hp; simp at hp)]
  exact hp

theorem month_lens {u : String} (hu : twoDigits u) :
    ∀ s ∈ monthBlock u, s.length = 5 := by
  intro s hs
  obtain ⟨st, hst, rfl⟩ := List.mem_map.mp hs
  rw [String.length_append, stems_len st hst, hu.len]

theorem quarter_lens {u : String} (hu : twoDigits u) :
    ∀ s ∈ quarterBlock u, s.length = 4 := by
  intro s hs
  obtain ⟨qs, hqs, rfl⟩ := List.mem_map.mp hs
  rw [String.length_append, hu.len, qList_len qs hqs]

theorem tail_lens {w : String} {us : List String} (hU : ∀ x ∈ us, twoDigits x) :
    ∀ s ∈ tailBlock w us, s.length = 2 + w.length := by
  intro s hs
  obtain ⟨u, hu, rfl⟩ := List.mem_map.mp hs
  rw [String.length_append, (hU u hu).len]

theorem headBlock_lens {p : String} {us : List String} (hU : ∀ x ∈ us, twoDigits x) :
    ∀ s ∈ headBlock p us, s.length = p.length + 2 := by
  intro s hs
  obtain ⟨u, hu, rfl⟩ := List.mem_map.mp hs
  rw [String.length_append, (hU u hu).len]

theorem disj_heads {L₁ L₂ : List String}
    (h1 : ∀ s ∈ L₁, (s.data.head?.map Char.isDigit) = some false)
    (h2 : ∀ s ∈ L₂, (s.data.head?.map Char.isDigit) = some true) :
    L₁.Disjoint L₂ := by
  intro s hs1 hs2
  have := h1 s hs1
  rw [h2 s hs2] at this
  simp at this

theorem disj_lens {L₁ L₂ : List String} {a b : Nat}
    (h1 : ∀ s ∈ L₁, s.length = a) (h2 : ∀ s ∈ L₂, s.length = b) (hab : a ≠ b) :
    L₁.Disjoint L₂ := by
  intro s hs1 hs2
  exact hab ((h1 s hs1).symm.trans (h2 s hs2))

theorem disj_month_month {u v : String} (h : u ≠ v) :
    (monthBlock u).Disjoint (monthBlock v) := by
  intro s hs1 hs2
  obtain ⟨st, hst, rfl⟩ := List.mem_map.mp hs1
  obtain ⟨st', hst', heq⟩ := List.mem_map.mp hs2
  exact h (str_split (by rw [stems_len st' hst', stems_len st hst]) heq).2.symm

theorem disj_month_CAL {u : String} {us : List String} :
    (monthBlock u).Disjoint (headBlock "CAL" us) := by
  intro s hs1 hs2
  obtain ⟨st, hst, rfl⟩ := List.mem_map.mp hs1
  obtain ⟨v, -, heq⟩ := List.mem_map.mp hs2
  exact stems_ne_CAL st hst (str_split (by rw [stems_len st hst]; rfl) heq.symm).1

theorem disj_quarter_quarter {u v : String} (hu : twoDigits u) (hv : twoDigits v) (h : u ≠ v) :
    (quarterBlock u).Disjoint (quarterBlock v) := by
  intro s hs1 hs2
  obtain ⟨qs, hqs, rfl⟩ := List.mem_map.mp hs1
  obtain ⟨qs', hqs', heq⟩ := List.mem_map.mp hs2
  exact h (str_split (by rw [hu.len, hv.len]) heq.symm).1

theorem disj_tail_tail {w w' : String} {us vs : List String}
    (hU : ∀ x ∈ us, twoDigits x) (hV : ∀ x ∈ vs, twoDigits x) (hww : w ≠ w') :
    (tailBlock w us).Disjoint (tailBlock w' vs) := by
  intro s hs1 hs2
  obtain ⟨u, hu, rfl⟩ := List.mem_map.mp hs1
  obtain ⟨v, hv, heq⟩ := List.mem_map.mp hs2
  exact hww (str_split (by rw [(hU u hu).len, (hV v hv).len]) heq.symm).2

theorem disj_head_head {p p' : String} {us vs : List String}
    (h : p.data.head? ≠ p'.data.head?) (hp : p.data ≠ []) (hp' : p'.data ≠ []) :
    (headBlock p us).Disjoint (headBlock p' vs) := by
  intro s hs1 hs2
  obtain ⟨u, -, rfl⟩ := List.mem_map.mp hs1
  obtain ⟨v, -, heq⟩ := List.mem_map.mp hs2
  apply str_ne_of_head _ heq.symm
  rw [head_append_left hp, head_append_left hp']
  exact h

theorem nodup_monthBlock (u : String) : (monthBlock u).Nodup := by
  refine List.Nodup.map ?_ stems_nodup
  intro a b h
  have hd := congrArg String.data h
  rw [String.data_append, String.data_append] at hd
  exact String.ext (List.append_cancel_right hd)

theorem nodup_quarterBlock (u : String) : (quarterBlock u).Nodup := by
  refine List.Nodup.map ?_ qList_nodup
  intro a b h
  have hd := congrArg String.data h
  rw [String.data_append, String.data_append] at hd
  exact String.ext (List.append_cancel_left hd)

theorem nodup_tailBlock (w : String) {us : List String} (hN : us.Nodup) :
    (tailBlock w us).Nodup := by
  refine List.Nodup.map ?_ hN
  intro a b h
  have hd := congrArg String.data h
  rw [String.data_append, String.data_append] at hd
  exact String.ext (List.append_cancel_right hd)

theorem nodup_headBlock (p : String) {us : List String} (hN : us.Nodup) :
    (headBlock p us).Nodup := by
  refine List.Nodup.map ?_ hN
  intro a b h
  have hd := congrArg String.data h
  rw [String.data_append, String.data_append] at hd
  exact String.ext (List.append_cancel_left hd)

theorem nodup_genTenor {u0 u1 u2 : String}
    (h0 : twoDigits u0) (h1 : twoDigits u1) (h2 : twoDigits u2)
    (n01 : u0 ≠ u1) (n02 : u0 ≠ u2) (n12 : u1 ≠ u2) :
    (genTenor u0 u1 u2).Nodup := by
  have hU : ∀ x ∈ [u0, u1, u2], twoDigits x := by
    intro x hx
    simp only [List.mem_cons, List.not_mem_nil, or_false] at hx
    rcases hx with rfl | rfl | rfl <;> assumption
  have hN : ([u0, u1, u2] : List String).Nodup := by
    simp [List.nodup_cons, n01, n02, n12]
  rw [genTenor]
  simp only [List.nodup_append, List.disjoint_append_left, List.disjoint_append_right]
  repeat' apply And.intro
  all_goals
    first
    | exact nodup_monthBlock _
    | exact nodup_quarterBlock _
    | exact nodup_tailBlock _ hN
    | exact nodup_headBlock _ hN
    | (apply disj_month_month; first | exact n01 | exact n02 | exact n12)
    | (apply disj_month_CAL)
    | (apply disj_quarter_quarter <;> first | assumption | exact n01 | exact n02 | exact n12)
    | (apply disj_tail_tail hU hU; decide)
    | (apply disj_head_head <;> decide)
    | (apply disj_heads month_heads (quarter_heads (by assumption)))
    | (apply disj_heads month_heads (tail_heads hU))
    | (apply disj_lens (month_lens (by assumption)) (headBlock_lens hU); decide)
    | (apply disj_lens (quarter_lens (by assumption)) (tail_lens hU); decide)
    | (apply disj_lens (quarter_lens (by assumption)) (headBlock_lens hU); decide)
    | (exact (disj_heads (headBlock_heads (by decide)) (quarter_heads (by assumption))).symm)
    | (exact (disj_heads (headBlock_heads (by decide)) (tail_heads hU)).symm)

-- ===========================================================================
-- Helper lemmas: the tenor generator
-- ===========================================================================

theorem stems_eq : monthsList.map (fun m => pyTake (pyUpper m) 3) = stemsList := by decide

theorem month_map_eq (y : Nat) : monthsList.map (monthCode y) = monthBlock (last2 y) := by
  rw [monthBlock, ← stems_eq, List.map_map]
  exact List.map_congr_left fun m _ => rfl

theorem quarter_map_eq (y : Nat) :
    (List.range' 1 4).map (fun q => last2 y ++ "Q" ++ pyStr q) = quarterBlock (last2 y) := by
  have e : ∀ a b : String, last2 y ++ a ++ b = last2 y ++ (a ++ b) := fun a b =>
    String.append_assoc _ a b
  have q1 : ("Q" : String) ++ pyStr 1 = "Q1" := by decide
  have q2 : ("Q" : String) ++ pyStr 2 = "Q2" := by decide
  have q3 : ("Q" : String) ++ pyStr 3 = "Q3" := by decide
  have q4 : ("Q" : String) ++ pyStr 4 = "Q4" := by decide
  show [last2 y ++ "Q" ++ pyStr 1, last2 y ++ "Q" ++ pyStr 2, last2 y ++ "Q" ++ pyStr 3,
    last2 y ++ "Q" ++ pyStr 4] = quarterBlock (last2 y)
  rw [quarterBlock, qList]
  simp only [List.map_cons, List.map_nil]
  rw [e "Q" (pyStr 1), e "Q" (pyStr 2), e "Q" (pyStr 3), e "Q" (pyStr 4), q1, q2, q3, q4]

theorem tenorRaw_eq_gen (cy : Nat) :
    tenorRaw cy = genTenor (last2 cy) (last2 (cy + 1)) (last2 (cy + 1 + 1)) := by
  have hr : List.range' cy 3 = [cy, cy + 1, cy + 1 + 1] := rfl
  rw [tenorRaw, hr]
  simp only [List.flatMap_cons, List.flatMap_nil, List.map_cons, List.map_nil, List.append_nil,
    month_map_eq, quarter_map_eq]
  rw [genTenor]
  simp only [tailBlock, headBlock, List.map_cons, List.map_nil]
  simp [List.append_assoc]

theorem nodup_tenorRaw {cy : Nat} (h : 10 ≤ cy) : (tenorRaw cy).Nodup := by
  rw [tenorRaw_eq_gen]
  exact nodup_genTenor (twoDigits_last2 h) (twoDigits_last2 (by omega)) (twoDigits_last2 (by omega))
    (last2_ne h (by omega) (by omega)) (last2_ne h (by omega) (by omega))
    (last2_ne (by omega) (by omega) (by omega))

theorem strLe_trans : ∀ (a b c : String), strLe a b = true → strLe b c = true →
    strLe a c = true := by
  intro a b c hab hbc
  simp only [strLe, decide_eq_true_eq] at *
  exact le_trans hab hbc

theorem strLe_total : ∀ (a b : String), (strLe a b || strLe b a) = true := by
  intro a b
  simp only [strLe, Bool.or_eq_true, decide_eq_true_eq]
  exact le_total a b

theorem sorted_predefined (cy : Nat) : (predefined_options cy).Sorted (· ≤ ·) := by
  have h := List.sorted_mergeSort strLe_trans strLe_total (tenorRaw cy)
  exact h.imp (fun hab => by simpa [strLe] using hab)

theorem nodup_predefined {cy : Nat} (h : 10 ≤ cy) : (predefined_options cy).Nodup :=
  (List.mergeSort_perm (tenorRaw cy) strLe).nodup_iff.mpr (nodup_tenorRaw h)

theorem length_predefined (cy : Nat) : (predefined_options cy).length = 63 := by
  rw [predefined_options, List.length_mergeSort]
  rfl

theorem mem_predefined (cy : Nat) (s : String) :
    s ∈ predefined_options cy ↔ ∃ y, (cy ≤ y ∧ y ≤ cy + 2) ∧
      ((∃ m ∈ monthsList, s = pyTake (pyUpper m) 3 ++ last2 y) ∨
       (∃ q, 1 ≤ q ∧ q ≤ 4 ∧ s = last2 y ++ "Q" ++ pyStr q) ∨
       s = last2 y ++ "WIN" ∨ s = last2 y ++ "SUM" ∨
       s = "CAL" ++ last2 y ∨ s = "GY" ++ last2 y ∨ s = "SY" ++ last2 y) := by
  rw [predefined_options, List.mem_mergeSort, tenorRaw]
  simp only [List.mem_append, List.mem_flatMap, List.mem_map, List.mem_range', monthCode]
  constructor
  · rintro ((((((⟨y, ⟨i, hi, rfl⟩, m, hm, rfl⟩ | ⟨y, ⟨i, hi, rfl⟩, q, ⟨j, hj, rfl⟩, rfl⟩) |
      ⟨y, ⟨i, hi, rfl⟩, rfl⟩) | ⟨y, ⟨i, hi, rfl⟩, rfl⟩) | ⟨y, ⟨i, hi, rfl⟩, rfl⟩) |
      ⟨y, ⟨i, hi, rfl⟩, rfl⟩) | ⟨y, ⟨i, hi, rfl⟩, rfl⟩)
    · exact ⟨cy + 1 * i, ⟨by omega, by omega⟩, Or.inl ⟨m, hm, rfl⟩⟩
    · exact ⟨cy + 1 * i, ⟨by omega, by omega⟩,
        Or.inr (Or.inl ⟨1 + 1 * j, by omega, by omega, rfl⟩)⟩
    · exact ⟨cy + 1 * i, ⟨by omega, by omega⟩, Or.inr (Or.inr (Or.inl rfl))⟩
    · exact ⟨cy + 1 * i, ⟨by omega, by omega⟩, Or.inr (Or.inr (Or.inr (Or.inl rfl)))⟩
    · exact ⟨cy + 1 * i, ⟨by omega, by omega⟩, Or.inr (Or.inr (Or.inr (Or.inr (Or.inl rfl))))⟩
    · exact ⟨cy + 1 * i, ⟨by omega, by omega⟩,
        Or.inr (Or.inr (Or.inr (Or.inr (Or.inr (Or.inl rfl)))))⟩
    · exact ⟨cy + 1 * i, ⟨by omega, by omega⟩,
        Or.inr (Or.inr (Or.inr (Or.inr (Or.inr (Or.inr rfl)))))⟩
  · rintro ⟨y, ⟨h1, h2⟩, hcase⟩
    obtain ⟨i, hi3, rfl⟩ : ∃ i, i < 3 ∧ y = cy + 1 * i := ⟨y - cy, by omega, by omega⟩
    rcases hcase with ⟨m, hm, rfl⟩ | ⟨q, hq1, hq2, rfl⟩ | rfl | rfl | rfl | rfl | rfl
    · exact Or.inl (Or.inl (Or.inl (Or.inl (Or.inl (Or.inl
        ⟨cy + 1 * i, ⟨i, hi3, rfl⟩, m, hm, rfl⟩)))))
    · obtain ⟨j, hj4, rfl⟩ : ∃ j, j < 4 ∧ q = 1 + 1 * j := ⟨q - 1, by omega, by omega⟩
      exact Or.inl (Or.inl (Or.inl (Or.inl (Or.inl (Or.inr
        ⟨cy + 1 * i, ⟨i, hi3, rfl⟩, 1 + 1 * j, ⟨j, hj4, rfl⟩, rfl⟩)))))
    · exact Or.inl (Or.inl (Or.inl (Or.inl (Or.inr ⟨cy + 1 * i, ⟨i, hi3, rfl⟩, rfl⟩))))
    · exact Or.inl (Or.inl (Or.inl (Or.inr ⟨cy + 1 * i, ⟨i, hi3, rfl⟩, rfl⟩)))
    · exact Or.inl (Or.inl (Or.inr ⟨cy + 1 * i, ⟨i, hi3, rfl⟩, rfl⟩))
    · exact Or.inl (Or.inr ⟨cy + 1 * i, ⟨i, hi3, rfl⟩, rfl⟩)
    · exact Or.inr ⟨cy + 1 * i, ⟨i, hi3, rfl⟩, rfl⟩

-- ===========================================================================
-- Helper lemmas: sortedDedup, substring containment, filter pipeline
-- ===========================================================================

theorem sortedDedup_sorted (l : List String) : (sortedDedup l).Sorted (· ≤ ·) := by
  have h := List.sorted_mergeSort strLe_trans strLe_total l.dedup
  exact h.imp (fun hab => by simpa [strLe] using hab)

theorem sortedDedup_nodup (l : List String) : (sortedDedup l).Nodup :=
  (List.mergeSort_perm l.dedup strLe).nodup_iff.mpr (List.nodup_dedup l)

theorem mem_sortedDedup {a : String} {l : List String} : a ∈ sortedDedup l ↔ a ∈ l := by
  rw [sortedDedup, List.mem_mergeSort, List.mem_dedup]

theorem pyIn_iff {t s : String} :
    pyIn t s = true ↔ ∃ pre post, s.data = pre ++ t.data ++ post := by
  rw [pyIn, List.any_eq_true]
  constructor
  · rintro ⟨u, hu, hp⟩
    rw [List.mem_tails] at hu
    rw [List.isPrefixOf_iff_prefix] at hp
    have hinf : t.data <:+: s.data := List.infix_iff_prefix_suffix.mpr ⟨u, hp, hu⟩
    obtain ⟨pre, post, he⟩ := hinf
    exact ⟨pre, post, he.symm⟩
  · rintro ⟨pre, post, he⟩
    refine ⟨t.data ++ post, ?_, ?_⟩
    · rw [List.mem_tails]
      exact ⟨pre, by rw [he, List.append_assoc]⟩
    · rw [List.isPrefixOf_iff_prefix]
      exact ⟨post, rfl⟩

theorem pyIn_empty_hay {t : String} : pyIn t "" = true ↔ t = "" := by
  rw [pyIn_iff]
  constructor
  · rintro ⟨pre, post, he⟩
    have he' : pre ++ t.data ++ post = ([] : List Char) := he.symm
    simp only [List.append_eq_nil] at he'
    exact String.ext he'.1.2
  · rintro rfl
    exact ⟨[], [], rfl⟩

theorem stage_as_filter (b : Bool) (p : Record → Bool) (df : List Record) :
    (if b then df else df.filter p) = df.filter fun r => b || p r := by
  cases b
  · simp
  · simp [List.filter_true]

theorem filtered_df_eq_filter (df : List Record) (fs : FilterState) :
    filtered_df df fs = df.filter (keepAll fs) := by
  rw [filtered_df, filterCounterparty, filterPointType, filterPointName, filterTags,
    filterDate, filterSearch, stage_as_filter, stage_as_filter, stage_as_filter,
    stage_as_filter, stage_as_filter, stage_as_filter, List.filter_filter,
    List.filter_filter, List.filter_filter, List.filter_filter, List.filter_filter]
  refine List.filter_congr fun r _ => ?_
  simp only [keepAll]
  ac_rfl

-- ===========================================================================
-- Claim theorems
-- ===========================================================================

/-- C1 (amended): the Save Entry handler rejects a create exactly on its own
duplicate check, which compares the (Point Name, Date, Counterparty) triple,
not the Name field: when some active record matches the triple, the live
collection is unchanged, nothing is saved and no audit entry is appended. -/
theorem saveEntry_duplicate_triple_rejected (df : List Record) (hist : List HistRecord)
    (now : String) (inp : AddInput)
    (h : ∃ r ∈ df, r.pointName = inp.pointName ∧ r.date = inp.dateRepr ∧
      r.counterparty = inp.counterparty) :
    saveEntry df hist now inp = { df := df, history := hist, saved := false } := by
  obtain ⟨r, hr, h1, h2, h3⟩ := h
  have hdup : isDuplicateEntry df inp = true := by
    rw [isDuplicateEntry]
    simp only [Bool.and_eq_true, Bool.not_eq_true', List.isEmpty_eq_false, List.any_eq_true]
    exact ⟨List.ne_nil_of_mem hr, r, hr, by simp [h1, h2, h3]⟩
  rw [saveEntry, if_pos hdup]

/-- C1 counterexample: an active record with the same Name `A` already exists,
yet the create is accepted: the collection grows and an audit entry is
appended, refuting the claim that a duplicate Name is rejected. -/
theorem c1_counterexample :
    (∃ r ∈ [rA], r.name = inpSameName.name) ∧
    (saveEntry [rA] [] "TS" inpSameName).saved = true ∧
    (saveEntry [rA] [] "TS" inpSameName).df = [rA, newRowOf "TS" inpSameName] ∧
    (saveEntry [rA] [] "TS" inpSameName).history ≠ ([] : List HistRecord) := by
  refine ⟨⟨rA, List.mem_singleton.mpr rfl, rfl⟩, ?_, ?_, ?_⟩ <;> decide

/-- C1 witness: a concrete input whose (Point Name, Date, Counterparty) triple
matches an existing record is rejected with no mutation. -/
theorem c1_witness :
    (∃ r ∈ [rA], r.pointName = inpTriple.pointName ∧ r.date = inpTriple.dateRepr ∧
      r.counterparty = inpTriple.counterparty) ∧
    saveEntry [rA] [] "TS" inpTriple = { df := [rA], history := [], saved := false } :=
  ⟨⟨rA, List.mem_singleton.mpr rfl, rfl, rfl, rfl⟩,
    saveEntry_duplicate_triple_rejected [rA] [] "TS" inpTriple
      ⟨rA, List.mem_singleton.mpr rfl, rfl, rfl, rfl⟩⟩

/-- C2 (amended): for a non-empty tag selection, the tag stage retains a record
iff at least one selected tag occurs as a case-sensitive substring of the raw
Tags string; a record with an empty Tags field is retained only if some
selected tag is the empty string, hence never when all selected tags are
non-empty. -/
theorem filterTags_substring_semantics (df : List Record) (fs : FilterState) (r : Record)
    (hsel : fs.selectedTags ≠ []) :
    (r ∈ filterTags fs df ↔ r ∈ df ∧ ∃ t ∈ fs.selectedTags, ∃ pre post,
      r.tags.data = pre ++ t.data ++ post) ∧
    (r.tags = "" → (∀ t ∈ fs.selectedTags, t ≠ "") → r ∉ filterTags fs df) := by
  have hb : fs.selectedTags.isEmpty = false := by
    simpa [List.isEmpty_eq_false] using hsel
  constructor
  · rw [filterTags, if_neg (by simp [hb]), List.mem_filter]
    simp [tagMatches, List.any_eq_true, pyIn_iff]
  · intro htags hne hmem
    rw [filterTags, if_neg (by simp [hb]), List.mem_filter] at hmem
    obtain ⟨-, hm⟩ := hmem
    rw [tagMatches, List.any_eq_true] at hm
    obtain ⟨t, ht, hp⟩ := hm
    rw [htags] at hp
    exact hne t ht (pyIn_empty_hay.mp hp)

/-- C2 counterexample: the record with Tags `abc` is retained by the selected
tag `b` (substring hit) although none of its comma-separated tags equals `b`,
refuting exact-equality tag matching. -/
theorem c2_counterexample :
    filtered_df [rTags] fsTagB = [rTags] ∧ filterTags fsTagB [rTags] = [rTags] ∧
    specTagMatch rTags ["b"] = false := by
  refine ⟨?_, ?_, ?_⟩ <;> decide

/-- C2 witness: the substring characterization instantiated at the concrete
record and tag selection. -/
theorem c2_witness :
    (fsTagB.selectedTags ≠ []) ∧
    ((rTags ∈ filterTags fsTagB [rTags] ↔ rTags ∈ [rTags] ∧ ∃ t ∈ fsTagB.selectedTags,
        ∃ pre post, rTags.tags.data = pre ++ t.data ++ post) ∧
      (rTags.tags = "" → (∀ t ∈ fsTagB.selectedTags, t ≠ "") →
        rTags ∉ filterTags fsTagB [rTags])) :=
  ⟨by decide, filterTags_substring_semantics [rTags] fsTagB rTags (by decide)⟩

/-- C3: for any reference year of at least two decimal digits, the tenor
generator yields exactly 63 pairwise-distinct codes, lexicographically sorted,
and a string is offered iff it is one of the described codes (12 month codes,
4 quarter codes, and the WIN, SUM, CAL, GY, SY codes) for one of the three
years of the window. -/
theorem tenor_codes_spec (cy : Nat) (h : 10 ≤ cy) :
    (predefined_options cy).length = 63 ∧ (predefined_options cy).Nodup ∧
    (predefined_options cy).Sorted (· ≤ ·) ∧
    ∀ s, s ∈ predefined_options cy ↔ ∃ y, (cy ≤ y ∧ y ≤ cy + 2) ∧
      ((∃ m ∈ monthsList, s = pyTake (pyUpper m) 3 ++ last2 y) ∨
       (∃ q, 1 ≤ q ∧ q ≤ 4 ∧ s = last2 y ++ "Q" ++ pyStr q) ∨
       s = last2 y ++ "WIN" ∨ s = last2 y ++ "SUM" ∨
       s = "CAL" ++ last2 y ∨ s = "GY" ++ last2 y ∨ s = "SY" ++ last2 y) :=
  ⟨length_predefined cy, nodup_predefined h, sorted_predefined cy, mem_predefined cy⟩

/-- C3 witness: the tenor-code specification instantiated at reference year 2025. -/
theorem tenor_codes_spec_witness :
    10 ≤ 2025 ∧
    ((predefined_options 2025).length = 63 ∧ (predefined_options 2025).Nodup ∧
     (predefined_options 2025).Sorted (· ≤ ·) ∧
     ∀ s, s ∈ predefined_options 2025 ↔ ∃ y, (2025 ≤ y ∧ y ≤ 2025 + 2) ∧
       ((∃ m ∈ monthsList, s = pyTake (pyUpper m) 3 ++ last2 y) ∨
        (∃ q, 1 ≤ q ∧ q ≤ 4 ∧ s = last2 y ++ "Q" ++ pyStr q) ∨
        s = last2 y ++ "WIN" ∨ s = last2 y ++ "SUM" ∨
        s = "CAL" ++ last2 y ∨ s = "GY" ++ last2 y ∨ s = "SY" ++ last2 y)) :=
  ⟨by norm_num, tenor_codes_spec 2025 (by norm_num)⟩

/-- C4 (amended): a create entry carries the new row in the Data field with an
empty Old Data field; a delete entry likewise carries the deleted row's full
prior state in the Data field — not in Old Data, which is left empty. -/
theorem audit_state_fields (df : List Record) (hist : List HistRecord) (now : String)
    (inp : AddInput) (key user : String) (i : Nat) (r : Record)
    (hdup : isDuplicateEntry df inp = false)
    (hfind : df.findIdx? (fun r0 => rowKey r0 == key) = some i)
    (hget : df[i]? = some r) :
    ((saveEntry df hist now inp).history =
      hist ++ [histEntry now "create" (newRowOf now inp) none none (some inp.name)] ∧
      (histEntry now "create" (newRowOf now inp) none none (some inp.name)).data =
        some (newRowOf now inp) ∧
      (histEntry now "create" (newRowOf now inp) none none (some inp.name)).oldData = none) ∧
    ((deleteEntry df hist now key user).2 =
      hist ++ [histEntry now "delete" r none none (some user)] ∧
      (histEntry now "delete" r none none (some user)).data = some r ∧
      (histEntry now "delete" r none none (some user)).oldData = none) := by
  refine ⟨⟨?_, rfl, rfl⟩, ⟨?_, rfl, rfl⟩⟩
  · rw [saveEntry, if_neg (by simp [hdup])]
    rfl
  · rw [deleteEntry, hfind]
    show (match df[i]? with
      | none => (df, hist)
      | some r =>
        (df.eraseIdx i, append_history hist now "delete" r none none (some user))).2 =
      hist ++ [histEntry now "delete" r none none (some user)]
    rw [hget]
    rfl

/-- C4 counterexample: a concrete delete appends an entry whose Old Data
(prior-state) field is empty and whose Data (new-state) field holds the full
deleted row, refuting the claim that delete entries have an empty new-state
field and the prior state in the prior-state field. -/
theorem c4_counterexample :
    ∃ e, (deleteEntry [rA] [] "TS" (rowKey rA) "u").2 = [e] ∧ e.action = "delete" ∧
      e.oldData = none ∧ e.data = some rA :=
  ⟨_, rfl, rfl, rfl, rfl⟩

/-- C4 witness: the amended audit-field description instantiated on a concrete
create and a concrete delete. -/
theorem c4_witness :
    isDuplicateEntry [rA] inpSameName = false ∧
    ([rA].findIdx? (fun r0 => rowKey r0 == rowKey rA) = some 0) ∧ ([rA][0]? = some rA) ∧
    (((saveEntry [rA] [] "TS" inpSameName).history =
      [] ++ [histEntry "TS" "create" (newRowOf "TS" inpSameName) none none
        (some inpSameName.name)] ∧
      (histEntry "TS" "create" (newRowOf "TS" inpSameName) none none
        (some inpSameName.name)).data = some (newRowOf "TS" inpSameName) ∧
      (histEntry "TS" "create" (newRowOf "TS" inpSameName) none none
        (some inpSameName.name)).oldData = none) ∧
    ((deleteEntry [rA] [] "TS" (rowKey rA) "u").2 =
      [] ++ [histEntry "TS" "delete" rA none none (some "u")] ∧
      (histEntry "TS" "delete" rA none none (some "u")).data = some rA ∧
      (histEntry "TS" "delete" rA none none (some "u")).oldData = none)) :=
  ⟨by decide, by decide, rfl,
    audit_state_fields [rA] [] "TS" inpSameName (rowKey rA) "u" 0 rA (by decide) (by decide) rfl⟩

/-- C5: the cascading filter pipeline is idempotent and its output is a subset
of its input, for every record collection and every filter state. -/
theorem filter_idempotent_and_subset (df : List Record) (fs : FilterState) :
    filtered_df (filtered_df df fs) fs = filtered_df df fs ∧ filtered_df df fs ⊆ df := by
  constructor
  · rw [filtered_df_eq_filter, filtered_df_eq_filter, List.filter_filter]
    exact List.filter_congr fun a _ => Bool.and_self _
  · rw [filtered_df_eq_filter]
    exact List.filter_subset' df

/-- C6 (amended): each selectbox stage offers the sentinel `All` plus the
sorted distinct values — empty strings included — of its target field over the
records surviving the earlier stages; the tag stage offers the sorted distinct
stripped comma-fragments over its surviving records, with no explicit
sentinel. -/
theorem cascading_options_characterization (df : List Record) (fs : FilterState) (v : String) :
    (v ∈ counterparty_options df ↔ v = "All" ∨ ∃ r ∈ df, r.counterparty = v) ∧
    (v ∈ point_type_options df fs ↔
      v = "All" ∨ ∃ r ∈ filterCounterparty fs df, r.pointType = v) ∧
    (v ∈ point_name_options df fs ↔
      v = "All" ∨ ∃ r ∈ filterPointType fs (filterCounterparty fs df), r.pointName = v) ∧
    (v ∈ tags_available df fs ↔
      ∃ r ∈ filterPointName fs (filterPointType fs (filterCounterparty fs df)),
        ∃ t ∈ pySplit r.tags ',', pyStrip t = v) ∧
    (counterparty_list df).Sorted (· ≤ ·) ∧ (counterparty_list df).Nodup ∧
    (point_types df fs).Sorted (· ≤ ·) ∧ (point_types df fs).Nodup ∧
    (point_names df fs).Sorted (· ≤ ·) ∧ (point_names df fs).Nodup ∧
    (tags_available df fs).Sorted (· ≤ ·) ∧ (tags_available df fs).Nodup := by
  refine ⟨?_, ?_, ?_, ?_, sortedDedup_sorted _, sortedDedup_nodup _, sortedDedup_sorted _,
    sortedDedup_nodup _, sortedDedup_sorted _, sortedDedup_nodup _, sortedDedup_sorted _,
    sortedDedup_nodup _⟩
  · rw [counterparty_options, List.mem_cons, counterparty_list, mem_sortedDedup, List.mem_map]
  · rw [point_type_options, List.mem_cons, point_types, mem_sortedDedup, List.mem_map]
  · rw [point_name_options, List.mem_cons, point_names, mem_sortedDedup, List.mem_map]
  · rw [tags_available, mem_sortedDedup, List.mem_flatMap]
    simp only [List.mem_map]

/-- C6 counterexample: a record with an empty Counterparty cell puts the empty
string into the counterparty option list, while the distinct non-empty values
of the claim exclude it (and it is not the sentinel), refuting the claim that
each stage's options are exactly the non-empty values plus the sentinel. -/
theorem c6_counterexample :
    "" ∈ counterparty_list [blankRecord] ∧
    "" ∉ specNonEmptyValues ([blankRecord].map (fun r => r.counterparty)) ∧
    ("" : String) ≠ "All" := by
  refine ⟨mem_sortedDedup.mpr (by simp [blankRecord]), ?_, by decide⟩
  rw [specNonEmptyValues, mem_sortedDedup]
  simp

/-- C7: whenever the chosen point type is `Entire Country`, the point-name
choice logic of both the Add New and the Edit Existing form yields the
constant `Entire Country`, so the stored row's Point Name is that constant. -/
theorem entire_country_forces_point_name (cb svp cvp ssp csp now : String)
    (inp : AddInput) (r : Record) (e : EditInput)
    (hpn : inp.pointName = point_name_choice "Entire Country" cb svp cvp ssp csp)
    (hepn : e.pointName = new_point_name_choice "Entire Country" cb svp cvp ssp csp) :
    (newRowOf now inp).pointName = "Entire Country" ∧
    (updateRow r e).pointName = "Entire Country" := by
  have h1 : point_name_choice "Entire Country" cb svp cvp ssp csp = "Entire Country" := by
    rw [point_name_choice]
    simp
  have h2 : new_point_name_choice "Entire Country" cb svp cvp ssp csp = "Entire Country" := by
    rw [new_point_name_choice]
    simp
  exact ⟨by rw [newRowOf] at *; simp [hpn, h1], by rw [updateRow] at *; simp [hepn, h2]⟩

/-- C7 witness: concrete Add and Edit inputs with point type `Entire Country`
store the constant point name. -/
theorem c7_witness :
    inpEC.pointName = point_name_choice "Entire Country" "" "" "" "" "" ∧
    editEC.pointName = new_point_name_choice "Entire Country" "" "" "" "" "" ∧
    ((newRowOf "TS" inpEC).pointName = "Entire Country" ∧
      (updateRow rA editEC).pointName = "Entire Country") :=
  ⟨rfl, rfl, entire_country_forces_point_name "" "" "" "" "" "TS" inpEC rA editEC rfl rfl⟩

/-- C8: every `append_history` call appends exactly one entry at the end of the
log — the length grows by one, every previously appended entry is unchanged in
content and position, and the new final entry carries the current UTC
timestamp passed in. -/
theorem append_history_appends_one (log : List HistRecord) (now action : String)
    (rowData : Record) (oldData : Option Record) (comment userName : Option String) :
    (append_history log now action rowData oldData comment userName).length =
      log.length + 1 ∧
    (append_history log now action rowData oldData comment userName).take log.length = log ∧
    (append_history log now action rowData oldData comment userName).getLast? =
      some (histEntry now action rowData oldData comment userName) ∧
    (histEntry now action rowData oldData comment userName).timestamp = now := by
  refine ⟨?_, ?_, ?_, rfl⟩
  · simp [append_history]
  · rw [append_history, List.take_left]
  · rw [append_history, List.getLast?_concat]

/-- C9: Save Changes replaces the selected row by its update while leaving
every other row untouched; the update preserves the original Timestamp and
replaces the Info, Country, Point Type, Point Name, Date, Counterparty,
Capacity, Volume, Tags and Name fields with the newly entered values. -/
theorem edit_preserves_timestamp (df : List Record) (hist : List HistRecord) (now : String)
    (i : Nat) (e : EditInput) (r : Record) (hr : df[i]? = some r) :
    ((saveChanges df hist now i e).1).length = df.length ∧
    ((saveChanges df hist now i e).1)[i]? = some (updateRow r e) ∧
    (∀ j, j ≠ i → ((saveChanges df hist now i e).1)[j]? = df[j]?) ∧
    (updateRow r e).timestamp = r.timestamp ∧
    (updateRow r e).info = e.info ∧ (updateRow r e).country = e.country ∧
    (updateRow r e).pointType = e.pointType ∧ (updateRow r e).pointName = e.pointName ∧
    (updateRow r e).date = e.date ∧ (updateRow r e).counterparty = e.counterparty ∧
    (updateRow r e).capacityValue = e.capacityValue ∧
    (updateRow r e).capacityUnit = e.capacityUnit ∧
    (updateRow r e).volumeValue = e.volumeValue ∧
    (updateRow r e).volumeUnit = e.volumeUnit ∧
    (updateRow r e).tags = e.tagsValue ∧ (updateRow r e).name = e.name := by
  have hlt : i < df.length := by
    by_contra hcon
    rw [List.getElem?_eq_none (Nat.le_of_not_lt hcon)] at hr
    cases hr
  rw [saveChanges, hr]
  refine ⟨by simp [List.length_set], List.getElem?_set_self hlt,
    fun j hj => List.getElem?_set_ne (Ne.symm hj), rfl, rfl, rfl, rfl, rfl, rfl, rfl, rfl,
    rfl, rfl, rfl, rfl, rfl⟩

/-- C9 witness: the edit frame condition instantiated on a concrete one-row
collection. -/
theorem c9_witness :
    (([rA] : List Record)[0]? = some rA) ∧
    (((saveChanges [rA] [] "TS" 0 editEC).1).length = ([rA] : List Record).length ∧
    ((saveChanges [rA] [] "TS" 0 editEC).1)[0]? = some (updateRow rA editEC) ∧
    (∀ j, j ≠ 0 → ((saveChanges [rA] [] "TS" 0 editEC).1)[j]? = ([rA] : List Record)[j]?) ∧
    (updateRow rA editEC).timestamp = rA.timestamp ∧
    (updateRow rA editEC).info = editEC.info ∧
    (updateRow rA editEC).country = editEC.country ∧
    (updateRow rA editEC).pointType = editEC.pointType ∧
    (updateRow rA editEC).pointName = editEC.pointName ∧
    (updateRow rA editEC).date = editEC.date ∧
    (updateRow rA editEC).counterparty = editEC.counterparty ∧
    (updateRow rA editEC).capacityValue = editEC.capacityValue ∧
    (updateRow rA editEC).capacityUnit = editEC.capacityUnit ∧
    (updateRow rA editEC).volumeValue = editEC.volumeValue ∧
    (updateRow rA editEC).volumeUnit = editEC.volumeUnit ∧
    (updateRow rA editEC).tags = editEC.tagsValue ∧
    (updateRow rA editEC).name = editEC.name) :=
  ⟨rfl, edit_preserves_timestamp [rA] [] "TS" 0 editEC rA rfl⟩

/-- C10: the stored Tags value is the comma-space join of a lexicographically
sorted, duplicate-free list containing exactly the selected tags and the typed
custom tags; the Add and Edit handlers store this value verbatim. -/
theorem tags_value_sorted_dedup (sel : List String) (custom : String) :
    (∃ L, tags_value sel custom = pyJoin ", " L ∧ L.Sorted (· ≤ ·) ∧ L.Nodup ∧
      (∀ t, t ∈ L ↔ t ∈ sel ∨ t ∈ typed_tags custom)) ∧
    (∀ now inp, (newRowOf now inp).tags = inp.tagsValue) ∧
    (∀ r e, (updateRow r e).tags = e.tagsValue) := by
  refine ⟨⟨sortedDedup (sel ++ typed_tags custom), rfl, sortedDedup_sorted _,
    sortedDedup_nodup _, ?_⟩, fun _ _ => rfl, fun _ _ => rfl⟩
  intro t
  rw [mem_sortedDedup, List.mem_append]
